import Mathlib

/-
Verification of src/CompiledRecord.h (souffle record interning).

The embedding below translates the data model and operations of
CompiledRecord.h into Lean:

  - RamDomain (the value domain) is modelled as Int for tuple fields; handles
    (references) are modelled as Nat.  The representable limit of the value
    domain, std::numeric_limits of RamDomain in the source, is a parameter
    maxVal of pack, because RamTypes.h / CompiledTuple.h are not part of this
    snapshot; RAM_MAX below is the int32 instantiation.
  - A tuple (ram::Tuple of RamDomain) is a list of fields; one RecordMap
    instance handles tuples of one fixed arity, so inside one map all tuples
    have the same length.  A value-initialized tuple has all fields zero.
  - RecordMap state: r2i is the forward index (an association list in
    insertion order, standing for the unordered_map), and the block store
    i2r (a vector of value-initialized blocks of BLOCK_SIZE slots each) is
    modelled by numBlocks (the size of the vector) together with store, a
    total function from block index and offset to the slot contents; a slot
    of a freshly allocated block holds the value-initialized tuple, which is
    what the initial store returns everywhere.
  - pack follows the source line by line: look up the tuple, otherwise
    assign index = size + 1, insert into the forward index, THEN run the
    capacity assert, then allocate a block if needed and write the slot.
    The assert failure is a PackResult.assertFailed carrying the state at
    the moment the assertion fires.
-/

namespace souffle

/-- The scalar value domain of the runtime (fields of tuples). -/
abbrev RamDomain := Int

/-- Embeds getNull, which returns the constant 0 for every tuple type. -/
def getNull : RamDomain := 0

/-- Embeds isNull, which compares the reference against 0. -/
def isNull (ref : RamDomain) : Bool := ref == 0

/-- A tuple of RamDomain fields (ram::Tuple).  One RecordMap instance only
ever sees tuples of its one fixed arity. -/
structure Tup where
  fields : List RamDomain
deriving DecidableEq

/-- The value-initialized tuple of a given arity: all fields are zero.  This
is the content of every slot of a freshly allocated block, because
make_unique value-initializes the block. -/
def defaultTuple (arity : Nat) : Tup := ⟨List.replicate arity 0⟩

/-- Blocks of a million entries: 1 shifted left by 20 in the source. -/
def BLOCK_SIZE : Nat := 2 ^ 20

/-- Modelled from the spec: the representable limit of the value domain for
the int32 instantiation of RamDomain (RamTypes.h is not in this snapshot).
pack takes the limit as the explicit parameter maxVal; witnesses use this
constant. -/
def RAM_MAX : Nat := 2 ^ 31 - 1

/-- Embeds unordered_map::find on the forward index r2i: first entry whose
key equals the tuple. -/
def r2iFind : List (Tup × Nat) → Tup → Option Nat
  | [], _ => none
  | (a, i) :: rest, t => if a = t then some i else r2iFind rest t

/-- The state of one RecordMap instance: forward index r2i and block store
(numBlocks together with store model the vector i2r of blocks; store returns
the slot contents, value-initialized until written). -/
structure RecordMapState where
  r2i : List (Tup × Nat)
  numBlocks : Nat
  store : Nat → Nat → Tup

/-- The state of a freshly constructed RecordMap of the given arity: empty
forward index, no blocks allocated. -/
def initState (arity : Nat) : RecordMapState :=
  { r2i := [], numBlocks := 0, store := fun _ _ => defaultTuple arity }

/-- Outcome of one pack call: either a reference together with the state
after the call, or the fatal assertion, carrying the state at the moment the
assertion fires. -/
inductive PackResult where
  | ok (index : Nat) (s : RecordMapState)
  | assertFailed (s : RecordMapState)

/-- Embeds RecordMap::pack.  Under the pack lock: try the lookup in r2i; if
present return the stored index; otherwise index = size + 1 (0 is skipped
for the Nil element), insert the tuple into r2i, then assert that the index
differs from the limit of the value domain, then allocate a block when
index / BLOCK_SIZE equals the block count and write the tuple at offset
index mod BLOCK_SIZE of block index / BLOCK_SIZE. -/
def pack (maxVal : Nat) (s : RecordMapState) (t : Tup) : PackResult :=
  match r2iFind s.r2i t with
  | some i => .ok i s
  | none =>
    let index := s.r2i.length + 1
    let r2i' := s.r2i ++ [(t, index)]
    if index = maxVal then
      .assertFailed { s with r2i := r2i' }
    else
      let numBlocks' := if index / BLOCK_SIZE = s.numBlocks then s.numBlocks + 1 else s.numBlocks
      let store' := fun b o =>
        if b = index / BLOCK_SIZE ∧ o = index % BLOCK_SIZE then t else s.store b o
      .ok index { r2i := r2i', numBlocks := numBlocks', store := store' }

/-- Embeds RecordMap::unpack: read block index / BLOCK_SIZE at offset
index mod BLOCK_SIZE. -/
def unpack (s : RecordMapState) (index : Nat) : Tup :=
  s.store (index / BLOCK_SIZE) (index % BLOCK_SIZE)

/-- Whether the pack call returned (true) or died on the assertion (false). -/
def packOk (maxVal : Nat) (s : RecordMapState) (t : Tup) : Bool :=
  match pack maxVal s t with
  | .ok _ _ => true
  | .assertFailed _ => false

/-- The reference returned by the pack call (0 when the assertion fired and
nothing was returned). -/
def packIndex (maxVal : Nat) (s : RecordMapState) (t : Tup) : Nat :=
  match pack maxVal s t with
  | .ok i _ => i
  | .assertFailed _ => 0

/-- The map state after the pack call (for a failed call, the state at the
moment the assertion fires). -/
def packState (maxVal : Nat) (s : RecordMapState) (t : Tup) : RecordMapState :=
  match pack maxVal s t with
  | .ok _ s' => s'
  | .assertFailed s' => s'

/-- Sequential composition of pack calls: final state. -/
def packListState (maxVal : Nat) : RecordMapState → List Tup → RecordMapState
  | s, [] => s
  | s, t :: ts => packListState maxVal (packState maxVal s t) ts

/-- Sequential composition of pack calls: the references the calls return,
in call order. -/
def packListResults (maxVal : Nat) : RecordMapState → List Tup → List Nat
  | _, [] => []
  | s, t :: ts => packIndex maxVal s t :: packListResults maxVal (packState maxVal s t) ts

/-- Sequential composition of pack calls: true when no call died on the
capacity assertion. -/
def packListOk (maxVal : Nat) : RecordMapState → List Tup → Bool
  | _, [] => true
  | s, t :: ts => packOk maxVal s t && packListOk maxVal (packState maxVal s t) ts

/-- Insertion into an ordered map keyed by the reference (std::map
assignment: overwrite the value when the key is present). -/
def mapInsert : List (Nat × List RamDomain) → Nat → List RamDomain → List (Nat × List RamDomain)
  | [], k, v => [(k, v)]
  | (k', v') :: rest, k, v =>
    if k < k' then (k, v) :: (k', v') :: rest
    else if k = k' then (k, v) :: rest
    else (k', v') :: mapInsert rest k v

/-- Embeds RecordMap::getRecordReferences: build the ordered map from
reference to the field vector out of the forward index. -/
def getRecordReferences (s : RecordMapState) : List (Nat × List RamDomain) :=
  s.r2i.foldl (fun m p => mapInsert m p.2 p.1.fields) []

/-- The consolidated record table keyed by reference. -/
abbrev RecordTable := List (Nat × List RamDomain)

/-- Modelled from the spec: RecordTable::addRecord (RecordTable.h is not in
this snapshot).  Per the spec the consolidated snapshot is one mapping keyed
by handle into which each map's references are merged, so addRecord stores
the field sequence under the given handle. -/
def RecordTable.addRecord (tbl : RecordTable) (ref : Nat) (tuple : List RamDomain) : RecordTable :=
  mapInsert tbl ref tuple

/-- Embeds GeneralRecordMap::getRecordTable.  The static local recordTable
persists across calls and is threaded as the argument table; maps is the
list of getRecordReferences results of the registered maps at the time of
the call.  In the source, created is a NON-static local variable, so it is
re-initialized to false on every call and the aggregation loop runs on every
call; the returned table is also the new persistent table. -/
def getRecordTable (table : RecordTable) (maps : List (List (Nat × List RamDomain))) : RecordTable :=
  let created := false
  if !created then
    maps.foldl (fun tbl refs => refs.foldl (fun tbl p => RecordTable.addRecord tbl p.1 p.2) tbl) table
  else
    table

/-- The single value of the zero-arity tuple type. -/
def emptyTuple : Tup := ⟨[]⟩

/-- Embeds the RecordMap specialisation for empty records: pack returns 1
unconditionally, touching no state, no lock and no index. -/
def EmptyRecordMap.pack (_t : Tup) : Nat := 1

/-- Embeds the empty-record specialisation of unpack: every index yields the
single shared static empty tuple. -/
def EmptyRecordMap.unpack (_index : Nat) : Tup := emptyTuple

/-- Embeds the empty-record specialisation of getRecordReferences: exactly
the entry mapping 1 to the empty field sequence. -/
def EmptyRecordMap.getRecordReferences : List (Nat × List RamDomain) := [(1, [])]

/-- The states of one RecordMap reachable from construction by successful
pack calls (packOk covers both the lookup hit and the fresh insertion). -/
inductive Reached (arity maxVal : Nat) : RecordMapState → Prop where
  | init : Reached arity maxVal (initState arity)
  | step (s : RecordMapState) (t : Tup) : Reached arity maxVal s →
      packOk maxVal s t = true → Reached arity maxVal (packState maxVal s t)

/-- The state written by a fresh (not-yet-present) successful pack call. -/
def freshState (s : RecordMapState) (t : Tup) : RecordMapState :=
  { r2i := s.r2i ++ [(t, s.r2i.length + 1)]
  , numBlocks :=
      if (s.r2i.length + 1) / BLOCK_SIZE = s.numBlocks then s.numBlocks + 1 else s.numBlocks
  , store := fun b o =>
      if b = (s.r2i.length + 1) / BLOCK_SIZE ∧ o = (s.r2i.length + 1) % BLOCK_SIZE then t
      else s.store b o }

/-- The state invariant maintained by the RecordMap operations: references
are exactly 1..n in insertion order, keys are distinct, every recorded
tuple sits in its slot of the block store, the block count tracks the
largest reference, and the never-addressed slot 0 of block 0 still holds
the value-initialized tuple. -/
structure Inv (arity : Nat) (s : RecordMapState) : Prop where
  handles : s.r2i.map Prod.snd = List.range' 1 s.r2i.length
  keysNodup : (s.r2i.map Prod.fst).Nodup
  stored : ∀ p ∈ s.r2i, s.store (p.2 / BLOCK_SIZE) (p.2 % BLOCK_SIZE) = p.1
  blocks : s.numBlocks = if s.r2i.length = 0 then 0 else s.r2i.length / BLOCK_SIZE + 1
  slot0 : s.store 0 0 = defaultTuple arity

/-- The forward-index entries created by packing a list of fresh tuples,
starting at the given reference. -/
def handleFrom : Nat → List Tup → List (Tup × Nat)
  | _, [] => []
  | k, t :: ts => (t, k) :: handleFrom (k + 1) ts

/-- Input for the block-boundary witness: BLOCK_SIZE + 1 pairwise distinct
one-field tuples. -/
def witnessTuples : List Tup := (List.range (BLOCK_SIZE + 1)).map (fun i => ⟨[Int.ofNat i]⟩)

lemma pack_found (maxVal : Nat) (s : RecordMapState) (t : Tup) (i : Nat)
    (h : r2iFind s.r2i t = some i) : pack maxVal s t = .ok i s := by
  unfold pack
  rw [h]

lemma pack_fresh (maxVal : Nat) (s : RecordMapState) (t : Tup)
    (hf : r2iFind s.r2i t = none) (hcap : s.r2i.length + 1 ≠ maxVal) :
    pack maxVal s t = .ok (s.r2i.length + 1) (freshState s t) := by
  unfold pack
  rw [hf]
  simp only [if_neg hcap]
  rfl

lemma pack_fail (maxVal : Nat) (s : RecordMapState) (t : Tup)
    (hf : r2iFind s.r2i t = none) (hcap : s.r2i.length + 1 = maxVal) :
    pack maxVal s t = .assertFailed { s with r2i := s.r2i ++ [(t, s.r2i.length + 1)] } := by
  unfold pack
  rw [hf]
  simp only [if_pos hcap]

lemma packState_found (maxVal : Nat) (s : RecordMapState) (t : Tup) (i : Nat)
    (h : r2iFind s.r2i t = some i) : packState maxVal s t = s := by
  unfold packState
  rw [pack_found maxVal s t i h]

lemma packIndex_found (maxVal : Nat) (s : RecordMapState) (t : Tup) (i : Nat)
    (h : r2iFind s.r2i t = some i) : packIndex maxVal s t = i := by
  unfold packIndex
  rw [pack_found maxVal s t i h]

lemma packOk_found (maxVal : Nat) (s : RecordMapState) (t : Tup) (i : Nat)
    (h : r2iFind s.r2i t = some i) : packOk maxVal s t = true := by
  unfold packOk
  rw [pack_found maxVal s t i h]

lemma packState_fresh (maxVal : Nat) (s : RecordMapState) (t : Tup)
    (hf : r2iFind s.r2i t = none) (hcap : s.r2i.length + 1 ≠ maxVal) :
    packState maxVal s t = freshState s t := by
  unfold packState
  rw [pack_fresh maxVal s t hf hcap]

lemma packIndex_fresh (maxVal : Nat) (s : RecordMapState) (t : Tup)
    (hf : r2iFind s.r2i t = none) (hcap : s.r2i.length + 1 ≠ maxVal) :
    packIndex maxVal s t = s.r2i.length + 1 := by
  unfold packIndex
  rw [pack_fresh maxVal s t hf hcap]

lemma packOk_fresh (maxVal : Nat) (s : RecordMapState) (t : Tup)
    (hf : r2iFind s.r2i t = none) (hcap : s.r2i.length + 1 ≠ maxVal) :
    packOk maxVal s t = true := by
  unfold packOk
  rw [pack_fresh maxVal s t hf hcap]

lemma capacity_of_packOk (maxVal : Nat) (s : RecordMapState) (t : Tup)
    (hf : r2iFind s.r2i t = none) (hok : packOk maxVal s t = true) :
    s.r2i.length + 1 ≠ maxVal := by
  intro hcap
  have hfail := pack_fail maxVal s t hf hcap
  unfold packOk at hok
  rw [hfail] at hok
  exact Bool.false_ne_true hok

lemma r2iFind_not_mem_keys {l : List (Tup × Nat)} {t : Tup}
    (h : r2iFind l t = none) : t ∉ l.map Prod.fst := by
  induction l with
  | nil => simp
  | cons p rest ih =>
    obtain ⟨a, i⟩ := p
    by_cases hat : a = t
    · simp [r2iFind, hat] at h
    · simp only [r2iFind, if_neg hat] at h
      simp only [List.map_cons, List.mem_cons]
      rintro (rfl | hmem)
      · exact hat rfl
      · exact ih h hmem

lemma r2iFind_mem {l : List (Tup × Nat)} {t : Tup} {i : Nat}
    (h : r2iFind l t = some i) : (t, i) ∈ l := by
  induction l with
  | nil => simp [r2iFind] at h
  | cons p rest ih =>
    obtain ⟨a, j⟩ := p
    simp only [r2iFind] at h
    split at h
    next hat =>
      injection h with h2
      subst h2
      subst hat
      exact List.mem_cons_self _ _
    next hat =>
      exact List.mem_cons_of_mem _ (ih h)

lemma r2iFind_concat_self {l : List (Tup × Nat)} {t : Tup} (i : Nat)
    (h : r2iFind l t = none) : r2iFind (l ++ [(t, i)]) t = some i := by
  induction l with
  | nil => simp [r2iFind]
  | cons p rest ih =>
    obtain ⟨a, j⟩ := p
    by_cases hat : a = t
    · simp [r2iFind, hat] at h
    · simp only [r2iFind, if_neg hat] at h
      simp only [List.cons_append, r2iFind, if_neg hat]
      exact ih h

lemma r2iFind_concat_ne {l : List (Tup × Nat)} {t u : Tup} (i : Nat)
    (h : t ≠ u) : r2iFind (l ++ [(t, i)]) u = r2iFind l u := by
  induction l with
  | nil => simp [r2iFind, h]
  | cons p rest ih =>
    obtain ⟨a, j⟩ := p
    simp only [List.cons_append, r2iFind]
    by_cases hau : a = u
    · simp [if_pos hau]
    · simp only [if_neg hau]
      exact ih

lemma find_packState_self (maxVal : Nat) (s : RecordMapState) (t : Tup)
    (hok : packOk maxVal s t = true) :
    r2iFind (packState maxVal s t).r2i t = some (packIndex maxVal s t) := by
  cases hf : r2iFind s.r2i t with
  | some i =>
    rw [packState_found maxVal s t i hf, packIndex_found maxVal s t i hf, hf]
  | none =>
    have hcap := capacity_of_packOk maxVal s t hf hok
    rw [packState_fresh maxVal s t hf hcap, packIndex_fresh maxVal s t hf hcap]
    exact r2iFind_concat_self _ hf

lemma range'_one_snoc (a : Nat) : ∀ n : Nat, List.range' a (n + 1) = List.range' a n ++ [a + n] := by
  intro n
  induction n generalizing a with
  | zero => simp [List.range']
  | succ k ih =>
    rw [List.range'_succ, ih (a + 1), List.range'_succ]
    simp
    omega

lemma div_mod_inj {B h1 h2 : Nat} (hd : h1 / B = h2 / B) (hm : h1 % B = h2 % B) : h1 = h2 := by
  have e1 := Nat.div_add_mod h1 B
  have e2 := Nat.div_add_mod h2 B
  rw [hd, hm] at e1
  omega

lemma one_lt_BLOCK_SIZE : 1 < BLOCK_SIZE := by
  unfold BLOCK_SIZE
  norm_num

lemma inv_init (arity : Nat) : Inv arity (initState arity) := by
  constructor <;> simp [initState]

lemma inv_mem_handle_bounds {arity : Nat} {s : RecordMapState} (inv : Inv arity s) :
    ∀ p ∈ s.r2i, 1 ≤ p.2 ∧ p.2 ≤ s.r2i.length := by
  intro p hp
  have hmem : p.2 ∈ s.r2i.map Prod.snd := List.mem_map_of_mem Prod.snd hp
  rw [inv.handles] at hmem
  have := List.mem_range'_1.mp hmem
  omega

lemma inv_step {arity maxVal : Nat} {s : RecordMapState} {t : Tup}
    (inv : Inv arity s) (hok : packOk maxVal s t = true) :
    Inv arity (packState maxVal s t) := by
  cases hf : r2iFind s.r2i t with
  | some i =>
    rw [packState_found maxVal s t i hf]
    exact inv
  | none =>
    have hcap := capacity_of_packOk maxVal s t hf hok
    rw [packState_fresh maxVal s t hf hcap]
    have hbounds := inv_mem_handle_bounds inv
    constructor
    · show (s.r2i ++ [(t, s.r2i.length + 1)]).map Prod.snd
        = List.range' 1 (s.r2i ++ [(t, s.r2i.length + 1)]).length
      rw [List.map_append, inv.handles, List.length_append]
      simp only [List.map_cons, List.map_nil, List.length_cons, List.length_nil]
      rw [range'_one_snoc]
      simp
      omega
    · show ((s.r2i ++ [(t, s.r2i.length + 1)]).map Prod.fst).Nodup
      rw [List.map_append]
      simp only [List.map_cons, List.map_nil]
      have hnm : t ∉ s.r2i.map Prod.fst := r2iFind_not_mem_keys hf
      simp [List.nodup_append, inv.keysNodup, hnm]
    · intro p hp
      rcases List.mem_append.mp hp with hmem | hmem
      · have hle : p.2 ≤ s.r2i.length := (hbounds p hmem).2
        show (if p.2 / BLOCK_SIZE = (s.r2i.length + 1) / BLOCK_SIZE
              ∧ p.2 % BLOCK_SIZE = (s.r2i.length + 1) % BLOCK_SIZE then t
              else s.store (p.2 / BLOCK_SIZE) (p.2 % BLOCK_SIZE)) = p.1
        rw [if_neg]
        · exact inv.stored p hmem
        · rintro ⟨hd, hm⟩
          have := div_mod_inj hd hm
          omega
      · have hp : p = (t, s.r2i.length + 1) := by simpa using hmem
        subst hp
        show (if (s.r2i.length + 1) / BLOCK_SIZE = (s.r2i.length + 1) / BLOCK_SIZE
              ∧ (s.r2i.length + 1) % BLOCK_SIZE = (s.r2i.length + 1) % BLOCK_SIZE then t
              else s.store ((s.r2i.length + 1) / BLOCK_SIZE) ((s.r2i.length + 1) % BLOCK_SIZE)) = t
        rw [if_pos ⟨rfl, rfl⟩]
    · show (if (s.r2i.length + 1) / BLOCK_SIZE = s.numBlocks then s.numBlocks + 1 else s.numBlocks)
        = if (s.r2i ++ [(t, s.r2i.length + 1)]).length = 0 then 0
          else (s.r2i ++ [(t, s.r2i.length + 1)]).length / BLOCK_SIZE + 1
      rw [List.length_append]
      norm_num
      have hB := one_lt_BLOCK_SIZE
      cases hn : s.r2i.length with
      | zero =>
        have h0 : s.numBlocks = 0 := by rw [inv.blocks, hn]; simp
        rw [h0]
        have h1 : (0 + 1) / BLOCK_SIZE = 0 := Nat.div_eq_of_lt (by omega)
        simp [h1]
      | succ m =>
        have hnb : s.numBlocks = (m + 1) / BLOCK_SIZE + 1 := by
          rw [inv.blocks, hn]; simp
        have hsd := Nat.succ_div (m + 1) BLOCK_SIZE
        by_cases hdvd : BLOCK_SIZE ∣ m + 1 + 1
        · rw [if_pos hdvd] at hsd
          rw [hnb]
          rw [if_pos (by omega)]
          omega
        · rw [if_neg hdvd] at hsd
          rw [hnb]
          rw [if_neg (by omega)]
          omega
    · show (if 0 = (s.r2i.length + 1) / BLOCK_SIZE ∧ 0 = (s.r2i.length + 1) % BLOCK_SIZE then t
            else s.store 0 0) = defaultTuple arity
      rw [if_neg]
      · exact inv.slot0
      · rintro ⟨hd, hm⟩
        have : (0 : Nat) = s.r2i.length + 1 := div_mod_inj hd hm
        omega

lemma inv_reached {arity maxVal : Nat} {s : RecordMapState}
    (hs : Reached arity maxVal s) : Inv arity s := by
  induction hs with
  | init => exact inv_init arity
  | step s t _hR hok ih => exact inv_step ih hok

lemma inv_unpack {arity : Nat} {s : RecordMapState} (inv : Inv arity s)
    {t : Tup} {h : Nat} (hmem : (t, h) ∈ s.r2i) : unpack s h = t :=
  inv.stored (t, h) hmem

lemma snd_nodup {arity : Nat} {s : RecordMapState} (inv : Inv arity s) :
    (s.r2i.map Prod.snd).Nodup := by
  rw [inv.handles]
  exact List.nodup_range' 1 s.r2i.length

lemma eq_fst_of_same_handle {l : List (Tup × Nat)} (hnd : (l.map Prod.snd).Nodup)
    {t1 t2 : Tup} {h : Nat} (h1 : (t1, h) ∈ l) (h2 : (t2, h) ∈ l) : t1 = t2 := by
  induction l with
  | nil => cases h1
  | cons p rest ih =>
    simp only [List.map_cons, List.nodup_cons] at hnd
    rcases List.mem_cons.mp h1 with he1 | hm1 <;> rcases List.mem_cons.mp h2 with he2 | hm2
    · rw [← he2] at he1
      exact congrArg Prod.fst he1
    · exfalso
      apply hnd.1
      rw [← he1]
      show h ∈ List.map Prod.snd rest
      exact List.mem_map_of_mem Prod.snd hm2
    · exfalso
      apply hnd.1
      rw [← he2]
      show h ∈ List.map Prod.snd rest
      exact List.mem_map_of_mem Prod.snd hm1
    · exact ih hnd.2 hm1 hm2

lemma handleFrom_mem_getD (d : Tup) :
    ∀ (ts : List Tup) (k i : Nat), i < ts.length → (ts.getD i d, k + i) ∈ handleFrom k ts := by
  intro ts
  induction ts with
  | nil => intro k i h; simp at h
  | cons t rest ih =>
    intro k i h
    cases i with
    | zero => simp [handleFrom]
    | succ j =>
      have hj : j < rest.length := by simpa using h
      have := ih (k + 1) j hj
      simp only [handleFrom, List.getD_cons_succ]
      right
      have harith : k + 1 + j = k + (j + 1) := by omega
      rw [← harith]
      exact this

lemma packListOk_cons (maxVal : Nat) (s : RecordMapState) (t : Tup) (ts : List Tup) :
    packListOk maxVal s (t :: ts)
      = (packOk maxVal s t && packListOk maxVal (packState maxVal s t) ts) := rfl

lemma reached_packList {arity maxVal : Nat} :
    ∀ (ts : List Tup) (s : RecordMapState), Reached arity maxVal s →
      packListOk maxVal s ts = true → Reached arity maxVal (packListState maxVal s ts) := by
  intro ts
  induction ts with
  | nil => intro s hs _; exact hs
  | cons t rest ih =>
    intro s hs hok
    rw [packListOk_cons, Bool.and_eq_true] at hok
    exact ih (packState maxVal s t) (Reached.step s t hs hok.1) hok.2

lemma packList_ok_of_cap {maxVal : Nat} :
    ∀ (ts : List Tup) (s : RecordMapState), (∀ u ∈ ts, r2iFind s.r2i u = none) →
      ts.Nodup → s.r2i.length + ts.length < maxVal → packListOk maxVal s ts = true := by
  intro ts
  induction ts with
  | nil => intro s _ _ _; rfl
  | cons t rest ih =>
    intro s hfresh hnd hcap
    have hf : r2iFind s.r2i t = none := hfresh t (List.mem_cons_self t rest)
    have hlen : s.r2i.length + 1 ≠ maxVal := by
      have := List.length_cons t rest
      omega
    rw [packListOk_cons, Bool.and_eq_true]
    refine ⟨packOk_fresh maxVal s t hf hlen, ?_⟩
    rw [packState_fresh maxVal s t hf hlen]
    have hnd' := List.nodup_cons.mp hnd
    apply ih
    · intro u hu
      have hne : t ≠ u := fun he => hnd'.1 (he ▸ hu)
      show r2iFind (s.r2i ++ [(t, s.r2i.length + 1)]) u = none
      rw [r2iFind_concat_ne _ hne]
      exact hfresh u (List.mem_cons_of_mem t hu)
    · exact hnd'.2
    · show (s.r2i ++ [(t, s.r2i.length + 1)]).length + rest.length < maxVal
      rw [List.length_append]
      have := List.length_cons t rest
      simp only [List.length_cons, List.length_nil]
      omega

lemma packList_fresh_r2i {maxVal : Nat} :
    ∀ (ts : List Tup) (s : RecordMapState), (∀ u ∈ ts, r2iFind s.r2i u = none) →
      ts.Nodup → packListOk maxVal s ts = true →
      (packListState maxVal s ts).r2i = s.r2i ++ handleFrom (s.r2i.length + 1) ts := by
  intro ts
  induction ts with
  | nil => intro s _ _ _; simp [packListState, handleFrom]
  | cons t rest ih =>
    intro s hfresh hnd hok
    rw [packListOk_cons, Bool.and_eq_true] at hok
    have hf : r2iFind s.r2i t = none := hfresh t (List.mem_cons_self t rest)
    have hcap := capacity_of_packOk maxVal s t hf hok.1
    have hnd' := List.nodup_cons.mp hnd
    show (packListState maxVal (packState maxVal s t) rest).r2i
      = s.r2i ++ handleFrom (s.r2i.length + 1) (t :: rest)
    have hstep := packState_fresh maxVal s t hf hcap
    rw [hstep]
    have hok2 : packListOk maxVal (freshState s t) rest = true := by
      rw [← hstep]; exact hok.2
    have hfresh2 : ∀ u ∈ rest, r2iFind (freshState s t).r2i u = none := by
      intro u hu
      have hne : t ≠ u := fun he => hnd'.1 (he ▸ hu)
      show r2iFind (s.r2i ++ [(t, s.r2i.length + 1)]) u = none
      rw [r2iFind_concat_ne _ hne]
      exact hfresh u (List.mem_cons_of_mem t hu)
    have := ih (freshState s t) hfresh2 hnd'.2 hok2
    rw [this]
    show s.r2i ++ [(t, s.r2i.length + 1)]
        ++ handleFrom ((s.r2i ++ [(t, s.r2i.length + 1)]).length + 1) rest
      = s.r2i ++ ((t, s.r2i.length + 1) :: handleFrom (s.r2i.length + 1 + 1) rest)
    rw [List.append_assoc, List.length_append]
    simp only [List.length_cons, List.length_nil, List.singleton_append, Nat.zero_add]

/-- C1: the consolidated snapshot is NOT built exactly once.  Because
created is a non-static local that is false on every call, every call of
getRecordTable re-runs the aggregation over the registry: after a further
pack enlarges a registered map, the second call returns a table that
contains the new record, so it differs from the table the first call built.
This evaluates the embedded code at that failing scenario. -/
theorem C1_snapshot_refreshed :
    getRecordTable [] [[(1, [7])]] = [(1, [7])]
  ∧ getRecordTable (getRecordTable [] [[(1, [7])]]) [[(1, [7]), (2, [8, 9])]]
      ≠ getRecordTable [] [[(1, [7])]]
  ∧ getRecordTable (getRecordTable [] [[(1, [7])]]) [[(1, [7]), (2, [8, 9])]]
      = [(1, [7]), (2, [8, 9])] := by
  decide

/-- C2 counterexample: with the value-domain limit 2, packing a second
distinct tuple makes the assertion fire (packOk is false), yet the state at
the moment the assertion fires already contains the new forward-index entry
mapping the tuple to reference 2 — so a new forward-index entry does exist
when the failure fires, contrary to the claim. -/
theorem C2_counterexample :
    packOk 2 (packState 2 (initState 1) ⟨[0]⟩) ⟨[1]⟩ = false
  ∧ r2iFind (packState 2 (packState 2 (initState 1) ⟨[0]⟩) ⟨[1]⟩).r2i ⟨[1]⟩ = some 2 := by
  decide

/-- C2 (amended): on capacity exhaustion — the fresh reference reaching the
limit of the value domain — pack fails by the fatal assertion; the check
runs after the new entry is inserted into the forward index but before the
block store is touched, so at the failure the forward index already carries
the new entry while the block count and the block store are unchanged. -/
theorem C2_capacity_assert (maxVal : Nat) (s : RecordMapState) (t : Tup)
    (hf : r2iFind s.r2i t = none) (hcap : s.r2i.length + 1 = maxVal) :
    pack maxVal s t
      = .assertFailed { r2i := s.r2i ++ [(t, s.r2i.length + 1)]
                      , numBlocks := s.numBlocks
                      , store := s.store } :=
  pack_fail maxVal s t hf hcap

theorem C2_capacity_assert_witness :
    r2iFind (packState 2 (initState 1) ⟨[0]⟩).r2i ⟨[1]⟩ = none
  ∧ (packState 2 (initState 1) ⟨[0]⟩).r2i.length + 1 = 2
  ∧ pack 2 (packState 2 (initState 1) ⟨[0]⟩) ⟨[1]⟩
      = .assertFailed
          { r2i := (packState 2 (initState 1) ⟨[0]⟩).r2i
              ++ [(⟨[1]⟩, (packState 2 (initState 1) ⟨[0]⟩).r2i.length + 1)]
          , numBlocks := (packState 2 (initState 1) ⟨[0]⟩).numBlocks
          , store := (packState 2 (initState 1) ⟨[0]⟩).store } :=
  ⟨by decide, by decide,
    C2_capacity_assert 2 (packState 2 (initState 1) ⟨[0]⟩) ⟨[1]⟩ (by decide) (by decide)⟩

/-- C3 counterexample: the code addresses the block store by
index / BLOCK_SIZE and index mod BLOCK_SIZE without subtracting one.  After
packing one tuple (reference 1), the tuple is not at the claimed location
(1-1)/BLOCK_SIZE, (1-1) mod BLOCK_SIZE, and reference BLOCK_SIZE lands in
block 1, not in block (BLOCK_SIZE-1)/BLOCK_SIZE = 0 as the claim states. -/
theorem C3_counterexample :
    packIndex RAM_MAX (initState 1) ⟨[9]⟩ = 1
  ∧ unpack (packState RAM_MAX (initState 1) ⟨[9]⟩) 1 = ⟨[9]⟩
  ∧ (packState RAM_MAX (initState 1) ⟨[9]⟩).store ((1 - 1) / BLOCK_SIZE)
      ((1 - 1) % BLOCK_SIZE) ≠ ⟨[9]⟩
  ∧ BLOCK_SIZE / BLOCK_SIZE ≠ (BLOCK_SIZE - 1) / BLOCK_SIZE := by
  decide

/-- C3 (amended): the block store locates the tuple of reference h at block
h / BLOCK_SIZE, offset h mod BLOCK_SIZE (no subtraction), so block b holds
exactly the references in the interval from b*BLOCK_SIZE up to
(b+1)*BLOCK_SIZE - 1; a fresh pack writes its tuple at exactly that slot of
the returned reference and changes no other slot, and unpack reads exactly
that slot. -/
theorem C3_block_addressing (maxVal : Nat) (s : RecordMapState) (t : Tup)
    (hf : r2iFind s.r2i t = none) (hok : packOk maxVal s t = true) :
    (∀ h : Nat, unpack s h = s.store (h / BLOCK_SIZE) (h % BLOCK_SIZE))
  ∧ (packState maxVal s t).store (packIndex maxVal s t / BLOCK_SIZE)
      (packIndex maxVal s t % BLOCK_SIZE) = t
  ∧ (∀ b o : Nat,
      ¬(b = packIndex maxVal s t / BLOCK_SIZE ∧ o = packIndex maxVal s t % BLOCK_SIZE) →
      (packState maxVal s t).store b o = s.store b o)
  ∧ (∀ b h : Nat, h / BLOCK_SIZE = b ↔ b * BLOCK_SIZE ≤ h ∧ h < (b + 1) * BLOCK_SIZE) := by
  have hcap := capacity_of_packOk maxVal s t hf hok
  have hst := packState_fresh maxVal s t hf hcap
  have hix := packIndex_fresh maxVal s t hf hcap
  refine ⟨fun h => rfl, ?_, ?_, ?_⟩
  · rw [hst, hix]
    show (if (s.r2i.length + 1) / BLOCK_SIZE = (s.r2i.length + 1) / BLOCK_SIZE
          ∧ (s.r2i.length + 1) % BLOCK_SIZE = (s.r2i.length + 1) % BLOCK_SIZE then t
          else s.store ((s.r2i.length + 1) / BLOCK_SIZE) ((s.r2i.length + 1) % BLOCK_SIZE)) = t
    rw [if_pos ⟨rfl, rfl⟩]
  · intro b o hno
    rw [hix] at hno
    rw [hst]
    show (if b = (s.r2i.length + 1) / BLOCK_SIZE ∧ o = (s.r2i.length + 1) % BLOCK_SIZE then t
          else s.store b o) = s.store b o
    rw [if_neg hno]
  · intro b h
    show h / 1048576 = b ↔ b * 1048576 ≤ h ∧ h < (b + 1) * 1048576
    omega

theorem C3_block_addressing_witness :
    r2iFind (initState 1).r2i ⟨[9]⟩ = none
  ∧ packOk RAM_MAX (initState 1) ⟨[9]⟩ = true
  ∧ (packState RAM_MAX (initState 1) ⟨[9]⟩).store
      (packIndex RAM_MAX (initState 1) ⟨[9]⟩ / BLOCK_SIZE)
      (packIndex RAM_MAX (initState 1) ⟨[9]⟩ % BLOCK_SIZE) = ⟨[9]⟩ :=
  ⟨by decide, by decide,
    (C3_block_addressing RAM_MAX (initState 1) ⟨[9]⟩ (by decide) (by decide)).2.1⟩

/-- C6: pack is idempotent — a pack call on a tuple already present returns
the existing reference and mutates nothing: repeating a successful pack of
the same tuple yields exactly the same reference and exactly the same state
(forward index, block store and block count unchanged). -/
theorem C6_pack_idempotent (maxVal : Nat) (s : RecordMapState) (t : Tup)
    (hok : packOk maxVal s t = true) :
    pack maxVal (packState maxVal s t) t
      = .ok (packIndex maxVal s t) (packState maxVal s t) :=
  pack_found _ _ _ _ (find_packState_self maxVal s t hok)

theorem C6_pack_idempotent_witness :
    packOk RAM_MAX (initState 2) ⟨[1, 2]⟩ = true
  ∧ pack RAM_MAX (packState RAM_MAX (initState 2) ⟨[1, 2]⟩) ⟨[1, 2]⟩
      = .ok (packIndex RAM_MAX (initState 2) ⟨[1, 2]⟩) (packState RAM_MAX (initState 2) ⟨[1, 2]⟩) :=
  ⟨by decide, C6_pack_idempotent RAM_MAX (initState 2) ⟨[1, 2]⟩ (by decide)⟩

/-- C8: the zero-field specialisation — pack returns 1 for every call,
touching no state; unpack returns the single shared empty tuple for any
reference passed; getRecordReferences reports exactly the one entry mapping
reference 1 to the empty field sequence. -/
theorem C8_empty_record_map :
    (∀ t : Tup, EmptyRecordMap.pack t = 1)
  ∧ (∀ h : Nat, EmptyRecordMap.unpack h = emptyTuple)
  ∧ EmptyRecordMap.getRecordReferences = [(1, [])] :=
  ⟨fun _ => rfl, fun _ => rfl, rfl⟩

/-- C9: getNull is the constant 0, isNull holds exactly on 0, and every
reference a successful pack returns is positive, hence never null. -/
theorem C9_null_sentinel (arity maxVal : Nat) (s : RecordMapState)
    (hs : Reached arity maxVal s) :
    getNull = 0
  ∧ (∀ r : RamDomain, isNull r = true ↔ r = 0)
  ∧ (∀ t : Tup, packOk maxVal s t = true → isNull (packIndex maxVal s t : Int) = false) := by
  refine ⟨rfl, ?_, ?_⟩
  · intro r
    simp [isNull]
  · intro t hok
    have inv := inv_reached hs
    have hmem := r2iFind_mem (find_packState_self maxVal s t hok)
    have inv1 := inv_step inv hok
    have hge := (inv_mem_handle_bounds inv1 _ hmem).1
    simp only [isNull, beq_eq_false_iff_ne, ne_eq]
    intro hc
    have hz : packIndex maxVal s t = 0 := by exact_mod_cast hc
    omega

theorem C9_null_sentinel_witness :
    Reached 1 RAM_MAX (initState 1)
  ∧ packOk RAM_MAX (initState 1) ⟨[4]⟩ = true
  ∧ isNull (packIndex RAM_MAX (initState 1) ⟨[4]⟩ : Int) = false :=
  ⟨Reached.init, by decide,
    (C9_null_sentinel 1 RAM_MAX (initState 1) Reached.init).2.2 ⟨[4]⟩ (by decide)⟩

/-- C10: in a reachable non-empty map, pack has never written offset 0 of
block 0 (every stored reference is at least 1 and its slot is never block 0
offset 0), block 0 is allocated, and unpack 0 reads inside that allocated
block and returns the value-initialized tuple of the never-written slot. -/
theorem C10_unpack_zero (arity maxVal : Nat) (s : RecordMapState)
    (hs : Reached arity maxVal s) (hne : s.r2i ≠ []) :
    0 / BLOCK_SIZE < s.numBlocks
  ∧ s.store 0 0 = defaultTuple arity
  ∧ unpack s 0 = defaultTuple arity
  ∧ (∀ p ∈ s.r2i, 1 ≤ p.2 ∧ ¬(p.2 / BLOCK_SIZE = 0 ∧ p.2 % BLOCK_SIZE = 0)) := by
  have inv := inv_reached hs
  have hlen : s.r2i.length ≠ 0 := fun h => hne (List.length_eq_zero.mp h)
  refine ⟨?_, inv.slot0, ?_, ?_⟩
  · rw [inv.blocks, if_neg hlen, Nat.zero_div]
    exact Nat.succ_pos _
  · show s.store (0 / BLOCK_SIZE) (0 % BLOCK_SIZE) = defaultTuple arity
    rw [Nat.zero_div, Nat.zero_mod]
    exact inv.slot0
  · intro p hp
    refine ⟨(inv_mem_handle_bounds inv p hp).1, ?_⟩
    rintro ⟨hd, hm⟩
    have hz : p.2 = 0 :=
      div_mod_inj (hd.trans (Nat.zero_div _).symm) (hm.trans (Nat.zero_mod _).symm)
    have := (inv_mem_handle_bounds inv p hp).1
    omega

lemma packListResults_found (maxVal : Nat) (s : RecordMapState) (t : Tup) (i : Nat)
    (hf : r2iFind s.r2i t = some i) :
    ∀ m : Nat, packListResults maxVal s (List.replicate m t) = List.replicate m i
      ∧ packListState maxVal s (List.replicate m t) = s := by
  intro m
  induction m with
  | zero => exact ⟨rfl, rfl⟩
  | succ k ih =>
    constructor
    · show packIndex maxVal s t
          :: packListResults maxVal (packState maxVal s t) (List.replicate k t)
        = i :: List.replicate k i
      rw [packIndex_found maxVal s t i hf, packState_found maxVal s t i hf, ih.1]
    · show packListState maxVal (packState maxVal s t) (List.replicate k t) = s
      rw [packState_found maxVal s t i hf]
      exact ih.2

/-- C7: pack holds the map's exclusive lock across the whole find-or-insert
sequence, so concurrent pack calls serialize; n serialized pack calls of
one fresh tuple all return the same reference (the one the first call
created) and grow the forward index by exactly one entry. -/
theorem C7_serialized_dedup (maxVal : Nat) (s : RecordMapState) (t : Tup)
    (hfresh : r2iFind s.r2i t = none) (hcap : s.r2i.length + 1 ≠ maxVal)
    (n : Nat) (hn : 1 ≤ n) :
    packIndex maxVal s t = s.r2i.length + 1
  ∧ packListResults maxVal s (List.replicate n t) = List.replicate n (s.r2i.length + 1)
  ∧ (packListState maxVal s (List.replicate n t)).r2i.length = s.r2i.length + 1 := by
  obtain ⟨m, rfl⟩ : ∃ m, n = m + 1 := ⟨n - 1, by omega⟩
  have hix := packIndex_fresh maxVal s t hfresh hcap
  have hst := packState_fresh maxVal s t hfresh hcap
  have hfind1 : r2iFind (freshState s t).r2i t = some (s.r2i.length + 1) :=
    r2iFind_concat_self _ hfresh
  have hrep := packListResults_found maxVal (freshState s t) t (s.r2i.length + 1) hfind1 m
  refine ⟨hix, ?_, ?_⟩
  · show packIndex maxVal s t
        :: packListResults maxVal (packState maxVal s t) (List.replicate m t)
      = (s.r2i.length + 1) :: List.replicate m (s.r2i.length + 1)
    rw [hix, hst, hrep.1]
  · show (packListState maxVal (packState maxVal s t) (List.replicate m t)).r2i.length
      = s.r2i.length + 1
    rw [hst, hrep.2]
    show (s.r2i ++ [(t, s.r2i.length + 1)]).length = s.r2i.length + 1
    rw [List.length_append]
    simp

theorem C7_serialized_dedup_witness :
    r2iFind (initState 1).r2i ⟨[7]⟩ = none
  ∧ (initState 1).r2i.length + 1 ≠ RAM_MAX
  ∧ 1 ≤ 3
  ∧ packListResults RAM_MAX (initState 1) (List.replicate 3 ⟨[7]⟩)
      = List.replicate 3 ((initState 1).r2i.length + 1)
  ∧ (packListState RAM_MAX (initState 1) (List.replicate 3 ⟨[7]⟩)).r2i.length
      = (initState 1).r2i.length + 1 :=
  ⟨by decide, by decide, by decide,
    (C7_serialized_dedup RAM_MAX (initState 1) ⟨[7]⟩ (by decide) (by decide) 3 (by decide)).2.1,
    (C7_serialized_dedup RAM_MAX (initState 1) ⟨[7]⟩ (by decide) (by decide) 3 (by decide)).2.2⟩

/-- C5: in every reachable state the references in the forward index are
exactly 1..n in first-insertion order (dense, strictly increasing, starting
at 1, never 0); a fresh pack appends the new tuple with reference n+1 (the
k-th distinct tuple gets reference k); existing bindings are never removed
or reassigned by further packs; and packing two distinct tuples returns
distinct references. -/
theorem C5_density_injectivity (arity maxVal : Nat) (s : RecordMapState)
    (hs : Reached arity maxVal s) :
    s.r2i.map Prod.snd = List.range' 1 s.r2i.length
  ∧ (∀ p ∈ s.r2i, 1 ≤ p.2)
  ∧ (∀ t : Tup, r2iFind s.r2i t = none → packOk maxVal s t = true →
      packIndex maxVal s t = s.r2i.length + 1
      ∧ (packState maxVal s t).r2i = s.r2i ++ [(t, s.r2i.length + 1)])
  ∧ (∀ t : Tup, ∀ p ∈ s.r2i, p ∈ (packState maxVal s t).r2i)
  ∧ (∀ t1 t2 : Tup, t1 ≠ t2 → packOk maxVal s t1 = true →
      packOk maxVal (packState maxVal s t1) t2 = true →
      packIndex maxVal (packState maxVal s t1) t2 ≠ packIndex maxVal s t1) := by
  have inv := inv_reached hs
  refine ⟨inv.handles, fun p hp => (inv_mem_handle_bounds inv p hp).1, ?_, ?_, ?_⟩
  · intro t hf hok
    have hcap := capacity_of_packOk maxVal s t hf hok
    refine ⟨packIndex_fresh maxVal s t hf hcap, ?_⟩
    rw [packState_fresh maxVal s t hf hcap]
    rfl
  · intro t p hp
    cases hf : r2iFind s.r2i t with
    | some i =>
      rw [packState_found maxVal s t i hf]
      exact hp
    | none =>
      by_cases hcap : s.r2i.length + 1 = maxVal
      · unfold packState
        rw [pack_fail maxVal s t hf hcap]
        exact List.mem_append_left _ hp
      · rw [packState_fresh maxVal s t hf hcap]
        exact List.mem_append_left _ hp
  · intro t1 t2 hne hok1 hok2
    have inv1 : Inv arity (packState maxVal s t1) := inv_step inv hok1
    have hmem1 := r2iFind_mem (find_packState_self maxVal s t1 hok1)
    cases hf2 : r2iFind (packState maxVal s t1).r2i t2 with
    | some h2 =>
      rw [packIndex_found maxVal _ t2 h2 hf2]
      intro he
      subst he
      exact hne (eq_fst_of_same_handle (snd_nodup inv1) hmem1 (r2iFind_mem hf2))
    | none =>
      have hcap2 := capacity_of_packOk maxVal _ t2 hf2 hok2
      rw [packIndex_fresh maxVal _ t2 hf2 hcap2]
      have hle := (inv_mem_handle_bounds inv1 _ hmem1).2
      omega

theorem C5_density_injectivity_witness :
    Reached 1 RAM_MAX (initState 1)
  ∧ r2iFind (initState 1).r2i ⟨[1]⟩ = none
  ∧ packOk RAM_MAX (initState 1) ⟨[1]⟩ = true
  ∧ packIndex RAM_MAX (initState 1) ⟨[1]⟩ = (initState 1).r2i.length + 1
  ∧ packIndex RAM_MAX (packState RAM_MAX (initState 1) ⟨[1]⟩) ⟨[2]⟩
      ≠ packIndex RAM_MAX (initState 1) ⟨[1]⟩ :=
  ⟨Reached.init, by decide, by decide,
    ((C5_density_injectivity 1 RAM_MAX (initState 1) Reached.init).2.2.1
      ⟨[1]⟩ (by decide) (by decide)).1,
    (C5_density_injectivity 1 RAM_MAX (initState 1) Reached.init).2.2.2.2
      ⟨[1]⟩ ⟨[2]⟩ (by decide) (by decide) (by decide)⟩

/-- C4: round-trip — unpacking the reference a successful pack returns
yields the packed tuple; and after packing BLOCK_SIZE + 1 distinct tuples
from a fresh map, unpacking references 1 and BLOCK_SIZE + 1 returns the
first and the (BLOCK_SIZE+1)-th packed tuple (round-trip across the block
boundary). -/
theorem C4_roundtrip (arity maxVal : Nat) (s : RecordMapState)
    (hs : Reached arity maxVal s) :
    (∀ t : Tup, packOk maxVal s t = true →
      unpack (packState maxVal s t) (packIndex maxVal s t) = t)
  ∧ (∀ ts : List Tup, ts.Nodup → ts.length = BLOCK_SIZE + 1 →
      packListOk maxVal (initState arity) ts = true →
      unpack (packListState maxVal (initState arity) ts) 1
          = ts.getD 0 (defaultTuple arity)
      ∧ unpack (packListState maxVal (initState arity) ts) (BLOCK_SIZE + 1)
          = ts.getD BLOCK_SIZE (defaultTuple arity)) := by
  constructor
  · intro t hok
    have inv1 := inv_step (inv_reached hs) hok
    exact inv_unpack inv1 (r2iFind_mem (find_packState_self maxVal s t hok))
  · intro ts hnd hlen hok
    have hfresh : ∀ u ∈ ts, r2iFind (initState arity).r2i u = none := fun u _ => rfl
    have invf := inv_reached (reached_packList ts (initState arity) Reached.init hok)
    have hr2i : (packListState maxVal (initState arity) ts).r2i = handleFrom 1 ts := by
      rw [packList_fresh_r2i ts (initState arity) hfresh hnd hok]
      simp [initState]
    constructor
    · apply inv_unpack invf
      rw [hr2i]
      have hm := handleFrom_mem_getD (defaultTuple arity) ts 1 0 (by omega)
      simpa using hm
    · apply inv_unpack invf
      rw [hr2i]
      have hm := handleFrom_mem_getD (defaultTuple arity) ts 1 BLOCK_SIZE (by omega)
      have harith : 1 + BLOCK_SIZE = BLOCK_SIZE + 1 := Nat.add_comm 1 BLOCK_SIZE
      rw [harith] at hm
      exact hm

lemma witnessTuples_nodup : witnessTuples.Nodup := by
  unfold witnessTuples
  refine List.Nodup.map ?_ (List.nodup_range _)
  intro a b hab
  have h2 : ([Int.ofNat a] : List Int) = [Int.ofNat b] := congrArg Tup.fields hab
  have h3 : Int.ofNat a = Int.ofNat b := by injection h2
  exact Int.ofNat.inj h3

lemma witnessTuples_length : witnessTuples.length = BLOCK_SIZE + 1 := by
  unfold witnessTuples
  rw [List.length_map, List.length_range]

lemma witnessTuples_packOk : packListOk RAM_MAX (initState 1) witnessTuples = true := by
  apply packList_ok_of_cap witnessTuples (initState 1) (fun u _ => rfl) witnessTuples_nodup
  rw [witnessTuples_length]
  show List.length [] + (BLOCK_SIZE + 1) < RAM_MAX
  unfold BLOCK_SIZE RAM_MAX
  norm_num

theorem C4_roundtrip_witness :
    Reached 1 RAM_MAX (initState 1)
  ∧ packOk RAM_MAX (initState 1) ⟨[3]⟩ = true
  ∧ unpack (packState RAM_MAX (initState 1) ⟨[3]⟩) (packIndex RAM_MAX (initState 1) ⟨[3]⟩)
      = ⟨[3]⟩
  ∧ witnessTuples.Nodup
  ∧ witnessTuples.length = BLOCK_SIZE + 1
  ∧ packListOk RAM_MAX (initState 1) witnessTuples = true
  ∧ unpack (packListState RAM_MAX (initState 1) witnessTuples) 1
      = witnessTuples.getD 0 (defaultTuple 1)
  ∧ unpack (packListState RAM_MAX (initState 1) witnessTuples) (BLOCK_SIZE + 1)
      = witnessTuples.getD BLOCK_SIZE (defaultTuple 1) :=
  ⟨Reached.init, by decide,
    (C4_roundtrip 1 RAM_MAX (initState 1) Reached.init).1 ⟨[3]⟩ (by decide),
    witnessTuples_nodup, witnessTuples_length, witnessTuples_packOk,
    ((C4_roundtrip 1 RAM_MAX (initState 1) Reached.init).2 witnessTuples
      witnessTuples_nodup witnessTuples_length witnessTuples_packOk).1,
    ((C4_roundtrip 1 RAM_MAX (initState 1) Reached.init).2 witnessTuples
      witnessTuples_nodup witnessTuples_length witnessTuples_packOk).2⟩

theorem C10_unpack_zero_witness :
    Reached 1 RAM_MAX (packState RAM_MAX (initState 1) ⟨[5]⟩)
  ∧ (packState RAM_MAX (initState 1) ⟨[5]⟩).r2i ≠ []
  ∧ 0 / BLOCK_SIZE < (packState RAM_MAX (initState 1) ⟨[5]⟩).numBlocks
  ∧ unpack (packState RAM_MAX (initState 1) ⟨[5]⟩) 0 = defaultTuple 1 :=
  ⟨Reached.step (initState 1) ⟨[5]⟩ Reached.init (by decide), by decide,
    (C10_unpack_zero 1 RAM_MAX _
      (Reached.step (initState 1) ⟨[5]⟩ Reached.init (by decide)) (by decide)).1,
    (C10_unpack_zero 1 RAM_MAX _
      (Reached.step (initState 1) ⟨[5]⟩ Reached.init (by decide)) (by decide)).2.2.1⟩

end souffle
